import Mathlib

/-!
Verification of the byzantium compile-time type-assertion library
(src/index.ts) against its specification.

The library is a family of TypeScript type-level functions. We give a
shallow embedding: `Ty` models the fragment of TypeScript types the
library's operators are exercised on (the two outcome tags `Is.Success`
and `Is.Fail`, the `Is.Nothing` marker, `never`, `any`, `Object`, string
literals and primitives, unions and intersections, object types, `Map`,
`Set`, `WeakMap`, arrays, tuples, function types, and the `Exception`
record), and `tsExtends` models TypeScript assignability (`extends`) on
that fragment.  `tsExtends` is defined through a fuel-indexed, structurally
recursive function so that every concrete instance reduces inside the
kernel; the fuel `sizeOf s + sizeOf t + 2` strictly exceeds the recursion
depth, since every recursive call strictly decreases `sizeOf s + sizeOf t`.

Each operator of src/index.ts (`Assert`, `And`, `Or`, `Nor`, `Nand`, `If`,
`Switch`, `Is`, `Is.Not`, `Is.All`, `Is.Any`, `Is.On`, `Is.In`, `Is.For`,
`Is.Type`, `Get.Member`, `Type.Arguments`) is translated clause by clause
from its conditional-type definition.
-/

namespace Byzantium

/-- The fragment of TypeScript types the library is exercised on.
`success`, `fail`, `nothing` are the unique symbols `Is.Success`,
`Is.Fail`, `Is.Nothing` of src/index.ts.  `exception m d` is the record
`Exception<m, d> = { [Reason]: m; [Data]: d }`. -/
inductive Ty where
  | any
  | never
  | objectTy
  | success
  | fail
  | nothing
  | string_
  | number_
  | str (s : String)
  | union (ts : List Ty)
  | inter (a b : Ty)
  | obj (fields : List (String × Ty))
  | map (k v : Ty)
  | set (e : Ty)
  | weakmap (k v : Ty)
  | arr (e : Ty)
  | tuple (ts : List Ty)
  | fn (params : List Ty) (ret : Ty)
  | exception (msg : String) (data : Ty)

/-- First-match lookup of a property in an object type's field list
(TypeScript object types have distinct keys, so first-match is exact). -/
def lookupF : List (String × Ty) → String → Option Ty
  | [], _ => none
  | (k', v) :: fs, k => if k == k' then some v else lookupF fs k

mutual

/-- Structural size of a modelled type, used as the fuel bound for the
assignability function. Every constructor contributes at least 1. -/
def tyDepth : Ty → Nat
  | .any => 1
  | .never => 1
  | .objectTy => 1
  | .success => 1
  | .fail => 1
  | .nothing => 1
  | .string_ => 1
  | .number_ => 1
  | .str _ => 1
  | .union ts => 1 + tyListDepth ts
  | .inter a b => 1 + tyDepth a + tyDepth b
  | .obj fs => 1 + fieldsDepth fs
  | .map k v => 1 + tyDepth k + tyDepth v
  | .set e => 1 + tyDepth e
  | .weakmap k v => 1 + tyDepth k + tyDepth v
  | .arr e => 1 + tyDepth e
  | .tuple ts => 1 + tyListDepth ts
  | .fn ps r => 1 + tyListDepth ps + tyDepth r
  | .exception _ d => 1 + tyDepth d

/-- Size of a list of modelled types. -/
def tyListDepth : List Ty → Nat
  | [] => 0
  | t :: ts => 1 + tyDepth t + tyListDepth ts

/-- Size of an object type's field list. -/
def fieldsDepth : List (String × Ty) → Nat
  | [] => 0
  | (_, v) :: fs => 1 + tyDepth v + fieldsDepth fs

end

/-- TypeScript assignability `S extends T` on the modelled fragment,
indexed by fuel (recursion depth bound).  Rules, in match order:
`T extends any` holds; `any` is assignable everywhere; `never` is
assignable everywhere; a union is assignable iff every member is; a type
is assignable to a union iff it is assignable to some member; an
intersection is assignable when one component is (sufficient on this
fragment, where intersections only arise from outcome tags); everything
in the fragment is assignable to `Object` (the fragment has no
`null`/`undefined`); literals and primitives follow the usual rules;
object types use width subtyping with covariant properties; `Map`, `Set`,
`WeakMap`, arrays are componentwise; a tuple is assignable to an array
when every component is assignable to the element type, and to a tuple of
the same length componentwise; function types compare parameter tuples
contravariantly and returns covariantly; `Exception` records compare
their literal messages by equality and their data covariantly.
Method keys of built-ins are not modelled; no theorem below depends on
them. -/
def tsExtendsF : Nat → Ty → Ty → Bool
  | 0, _, _ => false
  | n+1, s, t =>
    match s, t with
    | _, .any => true
    | .any, _ => true
    | .never, _ => true
    | .union ss, t => ss.all (fun s' => tsExtendsF n s' t)
    | s, .union ts => ts.any (fun t' => tsExtendsF n s t')
    | .inter a b, t => tsExtendsF n a t || tsExtendsF n b t
    | s, .inter a b => tsExtendsF n s a && tsExtendsF n s b
    | _, .objectTy => true
    | .str a, .str b => a == b
    | .str _, .string_ => true
    | .string_, .string_ => true
    | .number_, .number_ => true
    | .success, .success => true
    | .fail, .fail => true
    | .nothing, .nothing => true
    | .obj fs, .obj gs =>
        gs.all (fun kv =>
          match lookupF fs kv.1 with
          | some fv => tsExtendsF n fv kv.2
          | none => false)
    | .map k v, .map k' v' => tsExtendsF n k k' && tsExtendsF n v v'
    | .set a, .set b => tsExtendsF n a b
    | .weakmap k v, .weakmap k' v' => tsExtendsF n k k' && tsExtendsF n v v'
    | .arr a, .arr b => tsExtendsF n a b
    | .tuple ts, .arr b => ts.all (fun t' => tsExtendsF n t' b)
    | .tuple ts, .tuple us =>
        (ts.length == us.length) &&
        (ts.zip us).all (fun p => tsExtendsF n p.1 p.2)
    | .fn ps r, .fn qs r' =>
        tsExtendsF n (.tuple qs) (.tuple ps) && tsExtendsF n r r'
    | .exception m d, .exception m' d' => (m == m') && tsExtendsF n d d'
    | _, _ => false

/-- TypeScript assignability at a sufficient fuel: every recursive call of
`tsExtendsF` strictly decreases `tyDepth s + tyDepth t`, so the recursion
depth is below `tyDepth s + tyDepth t + 2` and the fuel never runs out. -/
def tsExtends (s t : Ty) : Bool :=
  tsExtendsF (tyDepth s + tyDepth t + 2) s t

/-- TypeScript's normalization of intersection types on the fragment:
`X & never` and `never & X` reduce to `never`; other intersections are
kept as `inter` (e.g. `Is.Success & Is.Fail` stays an irreducible
intersection, which is assignable to each of its components). -/
def mkInter : Ty → Ty → Ty
  | .never, _ => .never
  | _, .never => .never
  | a, b => .inter a b

/-- A distributive conditional type `X extends G ? ... : ...` with a naked
type parameter `X`: TypeScript maps `never` to `never` and distributes
over union members; otherwise the single branch function is applied. -/
def condTy (x : Ty) (branch : Ty → Ty) : Ty :=
  match x with
  | .never => .never
  | .union ts => .union (ts.map branch)
  | t => branch t

/-- `keyof Parent` on the modelled fragment: for an object type, the union
of its string-literal keys.  Method and index keys of built-ins
(`Map`, `Set`, arrays, …) are not modelled and are returned as the empty
union; no theorem below reads `keyof` at those types. -/
def keyofTy : Ty → Ty
  | .obj fs => .union (fs.map (fun kv => Ty.str kv.1))
  | _ => .union []

/-- The indexed access `Parent[keyof Parent]` on the modelled fragment:
for an object type, the union of its property value types.  For other
types (whose only properties are unmodelled built-in methods) the empty
union is returned; no theorem below reads it there. -/
def valuesTy : Ty → Ty
  | .obj fs => .union (fs.map (fun kv => kv.2))
  | _ => .union []

/-- The indexed access `Parent[Key]` for a single string-literal key of an
object type (the only shape at which the library reads it, guarded by
`Key extends keyof Parent`). -/
def indexAccess : Ty → Ty → Ty
  | .obj fs, .str k => (lookupF fs k).getD .never
  | _, _ => .never

/-- src/index.ts, `Assert<Test, Message, OnSuccess = Test, Data = Is.Nothing>
= Test extends Is.Fail ? Exception<Message, Data> : OnSuccess`.
`Test` is a naked type parameter, so the conditional distributes
(`condTy`).  The defaults `OnSuccess = Test` and `Data = Is.Nothing` are
supplied explicitly at use sites. -/
def Assert (test : Ty) (message : String) (onSuccess : Ty) (data : Ty) : Ty :=
  condTy test (fun t =>
    if tsExtends t .fail then .exception message data else onSuccess)

/-- src/index.ts, `And<A, B> = A & B extends Is.Fail ? Is.Fail : Is.Success`. -/
def And (a b : Ty) : Ty :=
  if tsExtends (mkInter a b) .fail then .fail else .success

/-- src/index.ts, `Or<A, B> = A | B extends Is.Fail ? Is.Fail : Is.Success`. -/
def Or (a b : Ty) : Ty :=
  if tsExtends (.union [a, b]) .fail then .fail else .success

/-- src/index.ts, `Is.Not<Attempt> = Attempt extends Fail ? Success : Fail`. -/
def Is.Not (attempt : Ty) : Ty :=
  if tsExtends attempt .fail then .success else .fail

/-- src/index.ts, `Nor<A, B> = Is.Not<Or<A, B>>`. -/
def Nor (a b : Ty) : Ty := Is.Not (Or a b)

/-- src/index.ts, `Nand<A, B> = Is.Not<And<A, B>>`. -/
def Nand (a b : Ty) : Ty := Is.Not (And a b)

/-- src/index.ts, `If<Condition, Success, Fail = Is.Fail> =
Condition extends Is.Fail ? Fail : Success`.  Its only use in the library
(`Switch`) applies it to an outcome tag, where distribution is vacuous. -/
def If (condition successBranch failBranch : Ty) : Ty :=
  if tsExtends condition .fail then failBranch else successBranch

/-- src/index.ts, `Is<Actual, Expected> =
[Expected, Actual] extends [Actual, Expected] ? Is.Success : Is.Fail`:
bidirectional assignability, tested through a single two-element tuple
check. -/
def Is (actual expected : Ty) : Ty :=
  if tsExtends (.tuple [expected, actual]) (.tuple [actual, expected])
  then .success else .fail

/-- src/index.ts, `Is.Type<SubClass, SuperClass> =
SubClass extends SuperClass ? Success : Fail`. -/
def Is.Type (subClass superClass : Ty) : Ty :=
  if tsExtends subClass superClass then .success else .fail

/-- src/index.ts, `Is.All<Attempts extends Is.Attempt[]>`: a non-empty
tuple recurses with `And<Head, All<Tail>>`; the base case is the
index-out-of-bounds fallback `Attempts[To.Number<keyof Attempts>]`, which
for the empty tuple is `[][number] = never`. -/
def Is.All : List Ty → Ty
  | [] => .never
  | h :: t => And h (Is.All t)

/-- src/index.ts, `Is.Any<Attempts extends Is.Attempt[]>`: a non-empty
tuple recurses with `Or<Head, All<Tail>>` — the source really recurses
into `All`, not `Any` — and the empty-tuple base case is again
`Attempts[To.Number<keyof Attempts>] = never`. -/
def Is.Any : List Ty → Ty
  | [] => .never
  | h :: t => Or h (Is.All t)

/-- src/index.ts, `Is.On<Parent, Member> = Member extends keyof Parent ?
Success : Parent extends Map<Member, any> ? Success : Member extends
Object ? (Parent extends WeakMap<Member, any> ? Success : Fail) : Fail`. -/
def Is.On (parent member : Ty) : Ty :=
  if tsExtends member (keyofTy parent) then .success
  else if tsExtends parent (.map member .any) then .success
  else if tsExtends member .objectTy then
    (if tsExtends parent (.weakmap member .any) then .success else .fail)
  else .fail

/-- src/index.ts, `Is.In<Parent, Member> =
Type<Parent, Map<any, any> | Set<any> | WeakMap<any, any>> extends Fail
? (Member extends Parent[keyof Parent] ? Success
   : Parent extends Map<any, Member> | Member[] | Set<Member>
     | WeakMap<any, Member> ? Success : Fail)
: Fail`.  Note the outer guard: when `Parent` is a `Map`/`Set`/`WeakMap`
the whole conditional takes the final `Fail` branch. -/
def Is.In (parent member : Ty) : Ty :=
  if tsExtends (Is.Type parent (.union [.map .any .any, .set .any, .weakmap .any .any])) .fail then
    (if tsExtends member (valuesTy parent) then .success
     else if tsExtends parent
        (.union [.map .any member, .arr member, .set member, .weakmap .any member])
     then .success
     else .fail)
  else .fail

/-- src/index.ts, `Type.Arguments<T>` for plain function types:
`T extends (...args: infer Args) => any ? Args : ... : never`
(the constructor-function clause is not exercised by the claims). -/
def Type.Arguments : Ty → Ty
  | .fn ps _ => .tuple ps
  | _ => .never

/-- src/index.ts, `Is.For<Funct, Args> = Args extends any[]
? Type<Args, Type.Arguments<Funct>> : Type<[Args], Type.Arguments<Funct>>`.
`Args` is a naked type parameter, so the conditional distributes
(`condTy`): `never` maps to `never`, and a union candidate is tested
member by member rather than being wrapped whole. -/
def Is.For (funct args : Ty) : Ty :=
  condTy args (fun a =>
    if tsExtends a (.arr .any)
    then Is.Type a (Type.Arguments funct)
    else Is.Type (.tuple [a]) (Type.Arguments funct))

/-- src/index.ts, `Get.Member<Parent, Key> =
Key extends keyof Parent ? Parent[Key] : Is.Fail`. -/
def Get.Member (parent key : Ty) : Ty :=
  if tsExtends key (keyofTy parent) then indexAccess parent key else .fail

/-- src/index.ts, `Switch<Test, Cases> =
If<Is.On<Cases, Test>, Get.Member<Cases, Test>>` (with `If`'s default
third argument `Is.Fail`). -/
def Switch (test cases : Ty) : Ty :=
  If (Is.On cases test) (Get.Member cases test) .fail

/-- The invariant demanded of every predicate result: it is one of the two
outcome tags. -/
def isTag (t : Ty) : Prop := t = Ty.success ∨ t = Ty.fail

/-! Helper lemmas about the embedding. -/

theorem ifTagFS (c : Bool) : isTag (if c then Ty.fail else Ty.success) := by
  cases c
  · exact Or.inl rfl
  · exact Or.inr rfl

theorem ifTagSF (c : Bool) : isTag (if c then Ty.success else Ty.fail) := by
  cases c
  · exact Or.inr rfl
  · exact Or.inl rfl

theorem and_ss : And Ty.success Ty.success = Ty.success := rfl

theorem and_sf : And Ty.success Ty.fail = Ty.fail := rfl

theorem and_fs : And Ty.fail Ty.success = Ty.fail := rfl

theorem and_ff : And Ty.fail Ty.fail = Ty.fail := rfl

theorem or_ss : Or Ty.success Ty.success = Ty.success := rfl

theorem or_sf : Or Ty.success Ty.fail = Ty.success := rfl

theorem or_fs : Or Ty.fail Ty.success = Ty.success := rfl

theorem or_ff : Or Ty.fail Ty.fail = Ty.fail := rfl

theorem tsExtends_fail_fail : tsExtends Ty.fail Ty.fail = true := rfl

theorem tsExtends_success_fail : tsExtends Ty.success Ty.fail = false := rfl

/-- A string literal is assignable to the union of the string-literal keys
of a field list exactly when the key occurs in the list. -/
theorem key_any (n : Nat) (k : String) (fields : List (String × Ty)) :
    (fields.map (fun kv => Ty.str kv.1)).any
        (fun t' => tsExtendsF (n+1) (.str k) t')
      = (lookupF fields k).isSome := by
  induction fields with
  | nil => rfl
  | cons kv rest ih =>
    obtain ⟨k', v⟩ := kv
    simp only [List.map_cons, List.any_cons, ih]
    show ((k == k') || (lookupF rest k).isSome)
        = (if k == k' then some v else lookupF rest k).isSome
    cases h : (k == k') <;> simp [h]

/-- The guard `Key extends keyof Parent` of `Get.Member` / `Is.On`, at an
object parent and a string-literal key, is key membership. -/
theorem key_guard (n : Nat) (k : String) (fields : List (String × Ty)) :
    tsExtendsF (n+2) (.str k) (keyofTy (.obj fields))
      = (lookupF fields k).isSome := by
  show (fields.map (fun kv => Ty.str kv.1)).any
      (fun t' => tsExtendsF (n+1) (.str k) t') = _
  exact key_any n k fields

theorem obj_map_false (n : Nat) (fs : List (String × Ty)) (x y : Ty) :
    tsExtendsF (n+2) (.obj fs) (.map x y) = false := rfl

theorem obj_weakmap_false (n : Nat) (fs : List (String × Ty)) (x y : Ty) :
    tsExtendsF (n+2) (.obj fs) (.weakmap x y) = false := rfl

theorem str_objectTy (n : Nat) (s : String) :
    tsExtendsF (n+2) (.str s) .objectTy = true := rfl

/-- `Is.On` at an object parent and a string-literal member is key
membership: the `Map`/`WeakMap` fallbacks never fire for object types. -/
theorem on_obj (fields : List (String × Ty)) (k : String) :
    Is.On (.obj fields) (.str k)
      = (if (lookupF fields k).isSome then Ty.success else Ty.fail) := by
  unfold Is.On
  simp only [tsExtends]
  simp only [key_guard, obj_map_false, str_objectTy, obj_weakmap_false]
  simp

/-- `Get.Member` at an object parent and a string-literal key is property
lookup, with `Is.Fail` signalling an absent key. -/
theorem getmember_obj (fields : List (String × Ty)) (k : String) :
    Get.Member (.obj fields) (.str k) = (lookupF fields k).getD Ty.fail := by
  unfold Get.Member
  simp only [tsExtends]
  simp only [key_guard]
  cases h : lookupF fields k with
  | none => simp [h, indexAccess]
  | some v => simp [h, indexAccess]

/-- A distributive conditional applied to a type that is neither `never`
nor a union is just its branch function applied to that type. -/
theorem condTy_single (x : Ty) (f : Ty → Ty)
    (hn : x ≠ .never) (hu : ∀ ts, x ≠ .union ts) :
    condTy x f = f x := by
  cases x <;> first | rfl | exact absurd rfl hn | exact absurd rfl (hu _)

/-- Any tuple type is assignable to `any[]`. -/
theorem tuple_arr_any (n : Nat) (ts : List Ty) :
    tsExtendsF (n+2) (.tuple ts) (.arr .any) = true := by
  show ts.all (fun t' => tsExtendsF (n+1) t' .any) = true
  induction ts with
  | nil => rfl
  | cons h rest ih =>
    simp only [List.all_cons, ih, Bool.and_true]
    cases h <;> rfl

/-- No type of the fragment other than `Is.Fail`, `never`, `any`, a union
or an intersection is assignable to the unique symbol `Is.Fail`. -/
theorem ext_fail_false (n : Nat) (t : Ty)
    (h1 : t ≠ .fail) (h2 : t ≠ .never) (h3 : t ≠ .any)
    (h4 : ∀ ts, t ≠ .union ts) (h5 : ∀ a b, t ≠ .inter a b) :
    tsExtendsF (n+2) t .fail = false := by
  cases t <;>
    first
    | rfl
    | exact absurd rfl h1
    | exact absurd rfl h2
    | exact absurd rfl h3
    | exact absurd rfl (h4 _)
    | exact absurd rfl (h5 _ _)

/-- One step of the symmetry argument for `Is`: the two-element tuple
check evaluates to the conjunction of the two directions of
assignability, and conjunction commutes. -/
theorem symm_step (n : Nat) (x y : Ty) :
    tsExtendsF (n+2) (.tuple [x, y]) (.tuple [y, x])
      = tsExtendsF (n+2) (.tuple [y, x]) (.tuple [x, y]) := by
  show (tsExtendsF (n+1) x y && (tsExtendsF (n+1) y x && true))
      = (tsExtendsF (n+1) y x && (tsExtendsF (n+1) x y && true))
  cases tsExtendsF (n+1) x y <;> cases tsExtendsF (n+1) y x <;> rfl

/-- The tuple check of `Is` is insensitive to swapping the two sides. -/
theorem tsExtends_swap (a b : Ty) :
    tsExtends (.tuple [b, a]) (.tuple [a, b])
      = tsExtends (.tuple [a, b]) (.tuple [b, a]) := by
  unfold tsExtends
  rw [Nat.add_comm (tyDepth (Ty.tuple [a, b])) (tyDepth (Ty.tuple [b, a]))]
  exact symm_step _ b a

/-! The claims. -/

/-- C1: the claim says `Is.Any` of a non-empty list of outcome tags is
`Is.Success` iff some element is `Is.Success`.  The code contradicts its
own docstring ("Checks if any type check in an array passes"):
`Any<[Head, ...Tail]>` recurses with `Or<Head, All<Tail>>` — into `All`,
not `Any` — and `All` of any non-empty list is `Is.Fail`, because its
empty-tuple base case `Attempts[To.Number<keyof Attempts>]` is `never`
and `And<X, never> = Is.Fail` (`X & never = never` is assignable to
`Is.Fail`).  So `Is.Any<[Is.Fail, Is.Success]>` evaluates to `Is.Fail`
although the list contains the success tag, and `Is.All<[Is.Success]>`
evaluates to `Is.Fail` although every element is the success tag. -/
theorem any_code_bug :
    Is.Any [Ty.fail, Ty.success] = Ty.fail
      ∧ Is.All [Ty.success] = Ty.fail :=
  ⟨rfl, rfl⟩

/-- C2: the claim says `Is.In` succeeds when the composite is a
`Map`/array/`Set`/`WeakMap` whose element type accepts the candidate.
For `Map`, `Set` and `WeakMap` parents the code yields `Is.Fail`
unconditionally: the outer guard
`Type<Parent, Map<any,any> | Set<any> | WeakMap<any,any>> extends Fail`
routes exactly those parents to its final `Fail` branch, so the inner
success checks `Parent extends Map<any, Member> | Set<Member> |
WeakMap<any, Member>` are dead code — evidence that the guard inverts the
author's intent.  Per-property scanning on object composites works as
claimed (last conjunct). -/
theorem in_code_bug :
    Is.In (.map .string_ .number_) .number_ = Ty.fail
      ∧ Is.In (.set .number_) .number_ = Ty.fail
      ∧ Is.In (.weakmap .objectTy .number_) .number_ = Ty.fail
      ∧ Is.In (.obj [("a", .number_)]) .number_ = Ty.success :=
  ⟨rfl, rfl, rfl, rfl⟩

/-- C3 counterexample: `Is.All` applied to the empty list evaluates to
`never`, which is neither of the two outcome tags — refuting the claim
that every combinator, including `Is.All`/`Is.Any` on the empty list,
yields one of the two tags. -/
theorem all_empty_not_tag : ¬ isTag (Is.All ([] : List Ty)) :=
  fun h => h.elim (fun h' => Ty.noConfusion h') (fun h' => Ty.noConfusion h')

/-- C3 (amended): every binary combinator yields one of the two outcome
tags, and `Is.All` / `Is.Any` applied to a non-empty list of tags yield
one of the two tags; applied to the empty list both instead evaluate to
`never`, a third state. -/
theorem combinators_two_valued :
    (∀ a b : Ty, isTag a → isTag b →
        isTag (And a b) ∧ isTag (Or a b) ∧ isTag (Is.Not a)
          ∧ isTag (Nor a b) ∧ isTag (Nand a b))
      ∧ (∀ l : List Ty, l ≠ [] → isTag (Is.All l) ∧ isTag (Is.Any l))
      ∧ Is.All ([] : List Ty) = Ty.never
      ∧ Is.Any ([] : List Ty) = Ty.never := by
  refine ⟨fun a b _ _ => ⟨ifTagFS _, ifTagFS _, ifTagSF _, ifTagSF _, ifTagSF _⟩,
    fun l hl => ?_, rfl, rfl⟩
  cases l with
  | nil => exact absurd rfl hl
  | cons h t => exact ⟨ifTagFS _, ifTagFS _⟩

/-- C3 witness: the amended theorem applied at the tags
`Is.Success`, `Is.Fail` and at the non-empty list `[Is.Success]`. -/
theorem combinators_two_valued_witness :
    isTag (And Ty.success Ty.fail) ∧ isTag (Is.Any [Ty.success]) :=
  ⟨(combinators_two_valued.1 Ty.success Ty.fail (Or.inl rfl) (Or.inr rfl)).1,
   (combinators_two_valued.2.1 [Ty.success] (List.cons_ne_nil _ _)).2⟩

/-- C4: `Assert` applied to the failure tag yields the `Exception` record
carrying exactly the supplied message and payload (the payload defaults
to the no-payload marker `Is.Nothing`, covered by the quantifier over
`d`); applied to the success tag it yields exactly the chosen success
value (which defaults to the tested type itself, the instance
`onS := Ty.success` of the second conjunct). -/
theorem assert_contract (m : String) (onS d : Ty) :
    Assert Ty.fail m onS d = Ty.exception m d
      ∧ Assert Ty.success m onS d = onS
      ∧ Assert Ty.fail m Ty.fail Ty.nothing = Ty.exception m Ty.nothing
      ∧ Assert Ty.success m Ty.success Ty.nothing = Ty.success :=
  ⟨rfl, rfl, rfl, rfl⟩

/-- C5: `Switch` over an object case mapping with a string-literal
discriminant: a present key selects exactly the associated value type
(`Is.On` sees the key, `Get.Member` retrieves it), an absent key yields
the failure tag.  Instantiating `fields` with
`[("admin", A), ("user", B), ("guest", C)]` gives scenario C:
discriminant `"admin"` yields `A`; `"superadmin"` yields `Is.Fail`. -/
theorem switch_spec (fields : List (String × Ty)) (k : String) :
    Switch (.str k) (.obj fields) = (lookupF fields k).getD Ty.fail := by
  unfold Switch If
  simp only [on_obj]
  cases h : lookupF fields k with
  | none => simp [h, tsExtends_fail_fail]
  | some v => simp [h, tsExtends_success_fail, getmember_obj]

/-- C6: the binary combinators compute the Boolean truth tables over the
outcome tags: `And` is `Is.Success` exactly when both operands are, and
`Or` is `Is.Fail` exactly when both operands are. -/
theorem and_or_tables (a b : Ty) (ha : isTag a) (hb : isTag b) :
    (And a b = Ty.success ↔ (a = Ty.success ∧ b = Ty.success))
      ∧ (Or a b = Ty.fail ↔ (a = Ty.fail ∧ b = Ty.fail)) := by
  rcases ha with rfl | rfl <;> rcases hb with rfl | rfl <;>
    simp [and_ss, and_sf, and_fs, and_ff, or_ss, or_sf, or_fs, or_ff]

/-- C6 witness: the truth tables at the pair `(Is.Success, Is.Fail)`. -/
theorem and_or_tables_witness :
    (And Ty.success Ty.fail = Ty.success
        ↔ (Ty.success = Ty.success ∧ Ty.fail = Ty.success))
      ∧ (Or Ty.success Ty.fail = Ty.fail
        ↔ (Ty.success = Ty.fail ∧ Ty.fail = Ty.fail)) :=
  and_or_tables Ty.success Ty.fail (Or.inl rfl) (Or.inr rfl)

/-- C7: the equality predicate is symmetric: `Is<A, B>` and `Is<B, A>`
evaluate the swapped two-element tuple checks, which are the two
conjuncts of mutual assignability in either order. -/
theorem is_symm (a b : Ty) : Is a b = Is b a := by
  unfold Is
  rw [tsExtends_swap]

/-- C8: `Is.For` tests a candidate argument list against the callable's
declared parameter tuple (`Type.Arguments`), and a single non-list
candidate is wrapped into a one-element tuple first, so
`Is.For<F, Args> = Is.For<F, [Args]>` for every single non-list
candidate.  A union candidate is not a single type and is excluded by
hypothesis: over a union the naked conditional distributes member by
member instead of wrapping the whole union, so the equality fails there;
`never` and `any` candidates are already excluded by the non-list
hypothesis itself, since both are assignable to `any[]`. -/
theorem for_singleton (ps : List Ty) (ret args : Ty) (bs : List Ty)
    (h : tsExtends args (.arr .any) = false)
    (hu : ∀ ts, args ≠ .union ts) :
    Is.For (.fn ps ret) args = Is.For (.fn ps ret) (.tuple [args])
      ∧ Is.For (.fn ps ret) (.tuple [args])
          = Is.Type (.tuple [args]) (.tuple ps)
      ∧ Is.For (.fn ps ret) (.tuple bs) = Is.Type (.tuple bs) (.tuple ps) := by
  have htup : ∀ (l : List Ty), tsExtends (.tuple l) (.arr .any) = true := by
    intro l
    simp only [tsExtends]
    exact tuple_arr_any _ l
  have hnn : args ≠ Ty.never := by
    intro he
    rw [he] at h
    exact Bool.noConfusion h
  have hfor : ∀ (l : List Ty),
      Is.For (.fn ps ret) (.tuple l) = Is.Type (.tuple l) (.tuple ps) := by
    intro l
    show (if tsExtends (.tuple l) (.arr .any)
        then Is.Type (.tuple l) (Type.Arguments (.fn ps ret))
        else Is.Type (.tuple [.tuple l]) (Type.Arguments (.fn ps ret)))
      = Is.Type (.tuple l) (.tuple ps)
    simp [htup, Type.Arguments]
  refine ⟨?_, hfor [args], hfor bs⟩
  have e1 : Is.For (.fn ps ret) args
      = Is.Type (.tuple [args]) (Type.Arguments (.fn ps ret)) := by
    unfold Is.For
    rw [condTy_single args _ hnn hu]
    simp [h]
  rw [e1, hfor [args]]
  rfl

/-- C8 witness: a one-parameter callable, the non-list non-union
candidate `string`, and the explicit one-element list `[string]`. -/
theorem for_singleton_witness :
    Is.For (.fn [Ty.string_] Ty.never) Ty.string_
        = Is.For (.fn [Ty.string_] Ty.never) (.tuple [Ty.string_])
      ∧ Is.For (.fn [Ty.string_] Ty.never) (.tuple [Ty.string_])
          = Is.Type (.tuple [Ty.string_]) (.tuple [Ty.string_])
      ∧ Is.For (.fn [Ty.string_] Ty.never) (.tuple [Ty.string_])
          = Is.Type (.tuple [Ty.string_]) (.tuple [Ty.string_]) :=
  for_singleton [Ty.string_] Ty.never Ty.string_ [Ty.string_] rfl
    (fun _ h => Ty.noConfusion h)

/-- C9 counterexample: `Assert` of `never` — a type that is not the
failure tag — does not yield the chosen success value: the naked
conditional distributes and maps `never` to `never`. -/
theorem assert_never_cex :
    Assert Ty.never "m" (Ty.str "ok") Ty.nothing = Ty.never
      ∧ Assert Ty.never "m" (Ty.str "ok") Ty.nothing ≠ Ty.str "ok"
      ∧ Ty.never ≠ Ty.fail :=
  ⟨rfl, fun h => Ty.noConfusion h, fun h => Ty.noConfusion h⟩

/-- C9 (amended): `Assert` treats every non-union, non-intersection type
other than the failure tag, `never` and `any` as success — including
types that are no outcome tag at all, such as the `Exception` record
itself — yielding the chosen success value; the `Exception` record is
produced exactly for the failure tag, while `never` propagates to
`never` (counterexample above) and unions distribute. -/
theorem assert_passthrough (test : Ty) (m : String) (onS d : Ty)
    (h1 : test ≠ .fail) (h2 : test ≠ .never) (h3 : test ≠ .any)
    (h4 : ∀ ts, test ≠ .union ts) (h5 : ∀ a b, test ≠ .inter a b) :
    Assert test m onS d = onS ∧ Assert Ty.fail m onS d = Ty.exception m d := by
  refine ⟨?_, rfl⟩
  cases test <;>
    first
    | rfl
    | exact absurd rfl h1
    | exact absurd rfl h2
    | exact absurd rfl h3
    | exact absurd rfl (h4 _)
    | exact absurd rfl (h5 _ _)

/-- C9 witness: the amended theorem applied at the `Exception` record —
not an outcome tag — which `Assert` passes through as success. -/
theorem assert_passthrough_witness :
    Assert (Ty.exception "e" Ty.nothing) "m" (Ty.str "ok") Ty.nothing
        = Ty.str "ok"
      ∧ Assert Ty.fail "m" (Ty.str "ok") Ty.nothing
          = Ty.exception "m" Ty.nothing :=
  assert_passthrough (Ty.exception "e" Ty.nothing) "m" (Ty.str "ok")
    Ty.nothing (fun h => Ty.noConfusion h) (fun h => Ty.noConfusion h)
    (fun h => Ty.noConfusion h) (fun _ h => Ty.noConfusion h)
    (fun _ _ h => Ty.noConfusion h)

/-- C10: `Get.Member` at an object parent signals a missing key in-band:
it is the declared value type for a present key and the failure tag for
an absent one — so (second conjunct) looking up a property whose declared
value type is literally `Is.Fail` is indistinguishable from looking up an
absent key. -/
theorem get_member_spec :
    (∀ (fields : List (String × Ty)) (k : String),
        Get.Member (.obj fields) (.str k) = (lookupF fields k).getD Ty.fail)
      ∧ Get.Member (.obj [("p", Ty.fail)]) (.str "p")
          = Get.Member (.obj [("q", Ty.string_)]) (.str "p") :=
  ⟨fun fields k => getmember_obj fields k, rfl⟩

end Byzantium
